import Mathlib

/-!
Verification development for the incremental build engine
`wingechr/build/build.py` (class `BuildEnvironment`).

The engine is shallowly embedded:
* file-system state is an explicit association list of file paths to
  metadata (modification / access time) plus a map of directories to the
  recursive list of files `os.walk` would yield under them;
* the mutable engine state (`__nodes`, `__targets`, `__now`) is a `Env`
  record threaded explicitly;
* Python exceptions become a `BuildError` sum returned via `Except`;
* timestamps are natural numbers (Python uses floats; the only float
  behaviour the code depends on is ordering and the truthiness of `0.0`,
  both of which are reproduced on `Nat`);
* `os.path.realpath` canonicalization is modelled as the identity: model
  paths are taken to be already canonical (no symlinks in the model);
* the build action (`builder`) is an opaque function from the keyword
  arguments and the file system to a new file system plus a success flag
  (`false` models the action raising; its partial file-system effects
  persist, as they do for a real process);
* `_prepare_build`'s `os.makedirs` side effect (creating parent
  directories of targets) is not observable in this model and is omitted;
  no claim depends on parent-directory existence.
-/

namespace WingechrBuild

/-- File metadata: modification time and access time. -/
structure FileMeta where
  mtime : Nat
  atime : Nat
deriving DecidableEq

/-- File-system model: regular files with metadata, and directories with
the recursive list of contained files (what `os.walk` yields, already in
`root/file` form).  A path is a file or a directory, never both. -/
structure FS where
  files : List (String × FileMeta)
  dirs : List (String × List String)
deriving DecidableEq

/-- Association-list lookup on the file table (first match wins). -/
def lookupL : List (String × FileMeta) → String → Option FileMeta
  | [], _ => none
  | (q, m) :: rest, p => if q = p then some m else lookupL rest p

/-- Association-list lookup on the directory table. -/
def lookupD : List (String × List String) → String → Option (List String)
  | [], _ => none
  | (q, fls) :: rest, p => if q = p then some fls else lookupD rest p

/-- Full metadata of a file, `none` if the file does not exist. -/
def lookupMeta (fs : FS) (p : String) : Option FileMeta :=
  lookupL fs.files p

/-- `os.path.getmtime` as a partial lookup: the mtime of an existing file. -/
def lookupFile (fs : FS) (p : String) : Option Nat :=
  (lookupL fs.files p).map FileMeta.mtime

/-- `os.path.isfile`. -/
def isfile (fs : FS) (p : String) : Bool :=
  (lookupL fs.files p).isSome

/-- `os.remove` (restricted to the file table). -/
def removeL : List (String × FileMeta) → String → List (String × FileMeta)
  | [], _ => []
  | (q, m) :: rest, p => if q = p then removeL rest p else (q, m) :: removeL rest p

def removeFile (fs : FS) (p : String) : FS :=
  { fs with files := removeL fs.files p }

/-- `os.utime(path, times=(now, now))` on the file table: every entry for
`p` gets both times set to `now`; absent files are unchanged (the code
only calls this on files it has just checked to exist). -/
def setMetaL : List (String × FileMeta) → String → Nat → List (String × FileMeta)
  | [], _, _ => []
  | (q, m) :: rest, p, now =>
      if q = p then (q, ⟨now, now⟩) :: setMetaL rest p now
      else (q, m) :: setMetaL rest p now

def setUtime (fs : FS) (p : String) (now : Nat) : FS :=
  { fs with files := setMetaL fs.files p now }

/-- Create or overwrite a file with given metadata (used to model actions
that write files). -/
def writeFile (fs : FS) (p : String) (m : FileMeta) : FS :=
  { fs with files := (p, m) :: removeL fs.files p }

/-- Engine state: `BuildEnvironment.__slots__ = ["__nodes", "__targets", "__now"]`.
`now` is captured once at construction from the mtime of a throwaway
temporary file (`_get_cur_timestamp`); in the model it is a parameter. -/
structure Env where
  nodes : List String
  targets : List String
  now : Nat
deriving DecidableEq

/-- `BuildEnvironment.__init__`: empty node sets, reference time `now`. -/
def Env.init (now : Nat) : Env := ⟨[], [], now⟩

/-- Set-insert on the node list (Python `set.add`). -/
def insertNode (l : List String) (p : String) : List String :=
  if p ∈ l then l else l ++ [p]

/-- `BuildEnvironment._get_path` = `os.path.realpath`.  Model paths are
already canonical, so canonicalization is the identity. -/
def getPath (p : String) : String := p

/-- The Python exceptions the engine can raise. -/
inductive BuildError where
  /-- `FileNotFoundError` from `os.path.getmtime` on a missing path. -/
  | fileNotFound (p : String)
  /-- `Exception("timestamp %s > now %s for %s")` from `_get_timestamp`. -/
  | timestampFuture (p : String)
  /-- `TypeError` from `os.path.getmtime(None)`: `_add_node` returns
  `None` for a directory dependency and that `None` reaches the
  timestamp computation. -/
  | typeError
  /-- `ValueError("target path cannot be source for this or previous builds")`
  from `_add_node` with `is_target=True`. -/
  | valueError (p : String)
  /-- `AssertionError` from the overlapping-names assert. -/
  | assertionError
  /-- `Exception("Build failed for %s")`. -/
  | buildFailed (p : String)
deriving DecidableEq

/-- `BuildEnvironment._get_timestamp(path, allow_future)`. -/
def getTimestamp (env : Env) (fs : FS) (path : String) (allowFuture : Bool) :
    Except BuildError Nat :=
  match lookupFile fs path with
  | none => .error (.fileNotFound path)
  | some ts =>
      if allowFuture = false ∧ env.now < ts then .error (.timestampFuture path)
      else .ok ts

/-- One element of the `(*dependencies, *sources.values())` tuple passed to
`_check_target_ok`: directory dependencies contribute `None` (the bare
`return` in `_add_node`), everything else a path string. -/
def getTimestampItem (env : Env) (fs : FS) : Option String → Except BuildError Nat
  | none => .error .typeError
  | some p => getTimestamp env fs p false

/-- Evaluate all timestamps in order; the first exception propagates
(this is how Python's `max` consumes the generator in `_get_latest_ts`). -/
def getLatestTsAux (env : Env) (fs : FS) : List (Option String) → Except BuildError (List Nat)
  | [] => .ok []
  | x :: xs =>
      match getTimestampItem env fs x with
      | .error e => .error e
      | .ok t =>
          match getLatestTsAux env fs xs with
          | .error e => .error e
          | .ok ts => .ok (t :: ts)

/-- `BuildEnvironment._get_latest_ts`: `max` of the timestamps.  The
caller guarantees the list is non-empty (`if dependencies:`), so taking
`foldl max 0` agrees with Python's `max` on the call sites (mtimes are
non-negative). -/
def getLatestTs (env : Env) (fs : FS) (paths : List (Option String)) :
    Except BuildError Nat :=
  match getLatestTsAux env fs paths with
  | .error e => .error e
  | .ok ts => .ok (ts.foldl max 0)

/-- The `sources_depends_latest_ts` local of `_check_target_ok`:
`None` when the dependency tuple is empty, otherwise the latest
timestamp (which may raise). -/
def sdlOf (env : Env) (fs : FS) (deps : List (Option String)) :
    Except BuildError (Option Nat) :=
  if deps.isEmpty then .ok none
  else
    match getLatestTs env fs deps with
    | .error e => .error e
    | .ok m => .ok (some m)

/-- The `target_latest_ts` local of `_check_target_ok`: `None` when the
target is not a file, otherwise its timestamp (which may raise). -/
def tlOf (env : Env) (fs : FS) (target : String) : Except BuildError (Option Nat) :=
  if isfile fs target then
    match getTimestamp env fs target false with
    | .error e => .error e
    | .ok t => .ok (some t)
  else .ok none

/-- The truthiness of the Python return expression
`target_latest_ts and (not s or (s and target_latest_ts >= s))`
(`None` and `0.0` are falsy). -/
def truthyCombine : Option Nat → Option Nat → Bool
  | none, _ => false
  | some t, none => decide (t ≠ 0)
  | some t, some s => decide (t ≠ 0) && (decide (s = 0) || decide (s ≤ t))

/-- `BuildEnvironment._check_target_ok(target, *dependencies)`.

The returned Python value is used only for its truthiness inside `all`,
so the model returns the `Bool` it denotes. -/
def checkTargetOk (env : Env) (fs : FS) (target : String) (deps : List (Option String)) :
    Except BuildError Bool :=
  match sdlOf env fs deps with
  | .error e => .error e
  | .ok sdl =>
      match tlOf env fs target with
      | .error e => .error e
      | .ok tl => .ok (truthyCombine tl sdl)

/-- `all(self._check_target_ok(t, ...) for t in targets.values())`:
evaluated left to right, short-circuiting on the first falsy result,
propagating the first exception. -/
def allTargetsOk (env : Env) (fs : FS) : List String → List (Option String) →
    Except BuildError Bool
  | [], _ => .ok true
  | t :: ts, deps =>
      match checkTargetOk env fs t deps with
      | .error e => .error e
      | .ok false => .ok false
      | .ok true => allTargetsOk env fs ts deps

/-- `os.walk` registration inside `_add_node` for a directory dependency:
each recursively contained file is added as a plain (non-target) node. -/
def registerDirFiles (env : Env) (fls : List String) : Env :=
  fls.foldl (fun e f => { e with nodes := insertNode e.nodes (getPath f) }) env

/-- `_add_node(d, allow_dir=True)` for one dependency entry: a directory
registers its contained files and yields `None` (the bare `return`);
anything else is registered as a plain node and yields its canonical
path. -/
def addNodeDep (env : Env) (fs : FS) (path : String) : Env × Option String :=
  match lookupD fs.dirs path with
  | some fls => (registerDirFiles env fls, none)
  | none =>
      let p := getPath path
      ({ env with nodes := insertNode env.nodes p }, some p)

/-- `[self._add_node(d, allow_dir=True) for d in dependencies]`. -/
def runDeps (env : Env) (fs : FS) : List String → Env × List (Option String)
  | [] => (env, [])
  | d :: ds =>
      let r := addNodeDep env fs d
      let rs := runDeps r.1 fs ds
      (rs.1, r.2 :: rs.2)

/-- `dict((k, self._add_node(v)) for k, v in sources.items())`:
plain-node registration never raises. -/
def runSources (env : Env) : List (String × String) → Env × List (String × String)
  | [] => (env, [])
  | (k, v) :: rest =>
      let p := getPath v
      let e1 : Env := { env with nodes := insertNode env.nodes p }
      let rs := runSources e1 rest
      (rs.1, (k, p) :: rs.2)

/-- `dict((k, self._add_node(v, is_target=True)) for k, v in targets.items())`:
raises `ValueError` on the first target whose canonical path is already a
known node; registrations made before the failure persist (Python mutates
the sets in place). -/
def runTargets (env : Env) : List (String × String) →
    Env × Except BuildError (List (String × String))
  | [] => (env, .ok [])
  | (k, v) :: rest =>
      let p := getPath v
      if p ∈ env.nodes then (env, .error (.valueError p))
      else
        let e1 : Env := { env with nodes := insertNode env.nodes p,
                                   targets := insertNode env.targets p }
        match runTargets e1 rest with
        | (e2, .ok rs) => (e2, .ok ((k, p) :: rs))
        | (e2, .error e) => (e2, .error e)

/-- The registered form of a targets/sources dict: keys unchanged, values
canonicalized. -/
def regPairs (l : List (String × String)) : List (String × String) :=
  l.map (fun kv => (kv.1, getPath kv.2))

/-- The value `_add_node(d, allow_dir=True)` returns for one dependency. -/
def depResult (fs : FS) (d : String) : Option String :=
  match lookupD fs.dirs d with
  | some _ => none
  | none => some (getPath d)

/-- The list of registration results for the dependencies. -/
def regDeps (fs : FS) (D : List String) : List (Option String) :=
  D.map (depResult fs)

/-- The `assert len(fun_kwargs) == len(targets) + len(sources) + len(kwargs)`
check.  Each input dict has internally unique keys (Python `dict`), so the
assert amounts to pairwise key-disjointness, i.e. the concatenated key
list having no duplicates. -/
def namesOk (T S K : List (String × String)) : Bool :=
  decide ((T.map Prod.fst ++ S.map Prod.fst ++ K.map Prod.fst).Nodup)

/-- The build action: receives the merged keyword arguments and the file
system, returns the (possibly partially) updated file system and a
success flag; `false` models the action raising an exception. -/
def Action : Type :=
  List (String × String) → FS → FS × Bool

/-- `for target in targets.values(): if not os.path.isfile(target): raise` —
the first target path that is not a file, if any. -/
def firstMissing (fs : FS) : List String → Option String
  | [] => none
  | t :: ts => if isfile fs t then firstMissing fs ts else some t

/-- The target-deletion loop in the `except` branch:
`if os.path.isfile(target): os.remove(target)`. -/
def deleteTargets (fs : FS) (tpaths : List String) : FS :=
  tpaths.foldl (fun f t => if isfile f t then removeFile f t else f) fs

/-- The success loop: `os.utime(target, times=(now, now))` for every
target. -/
def pinTimestamps (fs : FS) (tpaths : List String) (now : Nat) : FS :=
  tpaths.foldl (fun f t => setUtime f t now) fs

/-- Equality of `Except` values is decidable when it is on both sides. -/
def exceptDecEqFn {ε α : Type} [DecidableEq ε] [DecidableEq α] :
    (a b : Except ε α) → Decidable (a = b)
  | .ok x, .ok y =>
      if h : x = y then .isTrue (by rw [h]) else .isFalse (fun hh => h (by cases hh; rfl))
  | .ok _, .error _ => .isFalse (fun hh => Except.noConfusion hh)
  | .error _, .ok _ => .isFalse (fun hh => Except.noConfusion hh)
  | .error e, .error f =>
      if h : e = f then .isTrue (by rw [h]) else .isFalse (fun hh => h (by cases hh; rfl))

instance {ε α : Type} [DecidableEq ε] [DecidableEq α] : DecidableEq (Except ε α) :=
  exceptDecEqFn

/-- Outcome of one `build` call: the mutated engine state, the resulting
file system, whether the action was invoked, and the returned target dict
or the raised exception. -/
structure BuildOutcome where
  env : Env
  fs : FS
  ran : Bool
  result : Except BuildError (List (String × String))
deriving DecidableEq

/-- The tail of `build` after the action has been invoked: the
missing-target check followed by timestamp pinning. -/
def postBuild (env : Env) (fs : FS) (tgts : List (String × String)) : BuildOutcome :=
  match firstMissing fs (tgts.map Prod.snd) with
  | some t => ⟨env, fs, true, .error (.buildFailed t)⟩
  | none => ⟨env, pinTimestamps fs (tgts.map Prod.snd) env.now, true, .ok tgts⟩

/-- `BuildEnvironment.build(builder, targets, sources, dependencies, kwargs)`.

Stages, in source order: register dependencies (directories expand),
register sources, register targets (conflict check), the
name-disjointness assert, the staleness check
`all(_check_target_ok(t, *dependencies, *sources.values()))`, then either
skip or run the action followed by deletion-on-failure, the
missing-target check and timestamp pinning. -/
def build (env : Env) (fs : FS) (action : Action) (T S : List (String × String))
    (D : List String) (K : List (String × String)) : BuildOutcome :=
  match runTargets (runSources (runDeps env fs D).1 S).1 T with
  | (env3, .error e) => ⟨env3, fs, false, .error e⟩
  | (env3, .ok tgts) =>
      if namesOk tgts (runSources (runDeps env fs D).1 S).2 K = false then
        ⟨env3, fs, false, .error .assertionError⟩
      else
        match allTargetsOk env3 fs (tgts.map Prod.snd)
            ((runDeps env fs D).2 ++
              ((runSources (runDeps env fs D).1 S).2).map (fun kv => some kv.2)) with
        | .error e => ⟨env3, fs, false, .error e⟩
        | .ok true => ⟨env3, fs, false, .ok tgts⟩
        | .ok false =>
            match action (tgts ++ (runSources (runDeps env fs D).1 S).2 ++ K) fs with
            | (fs1, true) => postBuild env3 fs1 tgts
            | (fs1, false) => postBuild env3 (deleteTargets fs1 (tgts.map Prod.snd)) tgts

/-- The mtime Python would see for one element of the dependency tuple
(`0` as a dummy for the error cases, used only under hypotheses that
exclude them). -/
def tsOf (fs : FS) : Option String → Nat
  | none => 0
  | some p => (lookupFile fs p).getD 0

/-- One dependency-tuple element is a path of an existing file whose
mtime does not exceed the reference time. -/
def depExistsOk (env : Env) (fs : FS) : Option String → Bool
  | none => false
  | some p =>
      match lookupFile fs p with
      | none => false
      | some ts => decide (ts ≤ env.now)

/-- A target either does not exist or has mtime at most the reference
time (so reading its timestamp cannot raise). -/
def targetTimeOk (env : Env) (fs : FS) (t : String) : Bool :=
  match lookupFile fs t with
  | none => true
  | some ts => decide (ts ≤ env.now)

/-- The `max` over the dependency tuple's mtimes — the spec's
`latestTimestamp` of the sources and dependencies. -/
def latestOf (fs : FS) (deps : List (Option String)) : Nat :=
  (deps.map (tsOf fs)).foldl max 0

/-- Spec-side freshness of one target, in the words of the spec's
`isFresh` but amended at timestamp `0`: the target exists, its mtime is
nonzero, and either there are no sources/dependencies or its mtime is at
least the latest source/dependency mtime. -/
def specFreshOne (fs : FS) (t : String) (deps : List (Option String)) : Prop :=
  ∃ m, lookupFile fs t = some m ∧ m ≠ 0 ∧ (deps = [] ∨ latestOf fs deps ≤ m)

/-- Spec-side freshness of a whole request: every target is fresh. -/
def specFresh (fs : FS) (tpaths : List String) (deps : List (Option String)) : Prop :=
  ∀ t ∈ tpaths, specFreshOne fs t deps

/-- The dependency tuple passed to `_check_target_ok`: registration
results of the dependencies followed by the registered source paths. -/
def depsTuple (fs : FS) (S : List (String × String)) (D : List String) :
    List (Option String) :=
  regDeps fs D ++ (regPairs S).map (fun kv => some kv.2)

/-- Every dependency/source entry denotes an existing file no newer than
the reference time, and every already-existing target file is no newer
than the reference time: no timestamp read of this request can raise. -/
def timesOk (env : Env) (fs : FS) (T S : List (String × String)) (D : List String) :
    Bool :=
  (depsTuple fs S D).all (depExistsOk env fs) &&
    ((regPairs T).map Prod.snd).all (targetTimeOk env fs)

/-- The registration stage of a build succeeds: no declared target path
collides with a node known to the engine (from earlier requests or from
this request's dependencies, sources, or earlier targets). -/
def noConflict (env : Env) (fs : FS) (T S : List (String × String)) (D : List String) :
    Bool :=
  match (runTargets (runSources (runDeps env fs D).1 S).1 T).2 with
  | .ok _ => true
  | .error _ => false


/-- The staleness-check result of a request (the value of
`all(self._check_target_ok(...))`), computed on the engine state after
registration. -/
def checkResult (env : Env) (fs : FS) (T S : List (String × String)) (D : List String) :
    Except BuildError Bool :=
  allTargetsOk (runTargets (runSources (runDeps env fs D).1 S).1 T).1 fs
    ((regPairs T).map Prod.snd) (depsTuple fs S D)

/-- One dependency-tuple entry is a path of an existing file. -/
def itemExists (fs : FS) : Option String → Bool
  | none => false
  | some p => (lookupFile fs p).isSome

/-- One dependency-tuple entry is a path of an existing file whose mtime
is strictly newer than the reference time. -/
def itemFuture (env : Env) (fs : FS) : Option String → Bool
  | none => false
  | some p =>
      match lookupFile fs p with
      | none => false
      | some ts => decide (env.now < ts)

/-- One dependency-tuple entry, if it exists, is no newer than the
reference time. -/
def itemWithinNow (env : Env) (fs : FS) : Option String → Bool
  | none => true
  | some p =>
      match lookupFile fs p with
      | none => true
      | some ts => decide (ts ≤ env.now)

/-- One dependency-tuple entry is a path with no file behind it. -/
def itemMissing (fs : FS) : Option String → Bool
  | none => false
  | some p => (lookupFile fs p).isNone

/-! ### Concrete data for witnesses and counterexamples -/

def sName : String := "s"
def tName : String := "t"
def uName : String := "u"
def t1Name : String := "t1"
def t2Name : String := "t2"
def dName : String := "d"
def missingName : String := "missing"
def dstKey : String := "dst"
def srcKey : String := "src"
def n1Key : String := "n1"
def n2Key : String := "n2"

/-- An engine freshly constructed at reference time 100. -/
def envW : Env := Env.init 100

/-- An engine freshly constructed at reference time 5 (older than the
source files used with it). -/
def envEarly : Env := Env.init 5

/-- An engine that already knows `tName` as a node (e.g. from an earlier
request on the same engine). -/
def envN : Env := ⟨[tName], [tName], 100⟩

/-- Source file at mtime 10 and target file at mtime 50: fresh. -/
def fsW : FS := ⟨[(sName, ⟨10, 10⟩), (tName, ⟨50, 50⟩)], []⟩

/-- Only the source file exists (target missing: stale). -/
def fsP : FS := ⟨[(sName, ⟨10, 10⟩)], []⟩

/-- Source newer (mtime 50) and target missing. -/
def fsC9 : FS := ⟨[(sName, ⟨50, 50⟩)], []⟩

/-- An empty file system. -/
def fsEmpty : FS := ⟨[], []⟩

/-- A target file with modification time 0 (the epoch) and nothing else. -/
def fsZ : FS := ⟨[(tName, ⟨0, 0⟩)], []⟩

/-- Files `tName` (mtime 10) and `uName` (mtime 50). -/
def fsC3 : FS := ⟨[(tName, ⟨10, 10⟩), (uName, ⟨50, 50⟩)], []⟩

/-- Like `fsW` plus an empty directory `dName`. -/
def fsDir : FS := ⟨[(sName, ⟨10, 10⟩), (tName, ⟨50, 50⟩)], [(dName, [])]⟩

/-- The canonical one-target / one-source request of the test suite. -/
def tgtW : List (String × String) := [(dstKey, tName)]

def srcW : List (String × String) := [(srcKey, sName)]

/-- An action that changes nothing and succeeds. -/
def actNoop : Action := fun _ fs => (fs, true)

/-- An action that writes the target `tName` with mtimes of its own and
succeeds (models a copy that preserves an old source timestamp). -/
def actMakeT : Action := fun _ fs => (writeFile fs tName ⟨7, 3⟩, true)

/-- An action that writes target `tName` with mtime 10 (older than a
mtime-50 source) and succeeds. -/
def actOld : Action := fun _ fs => (writeFile fs tName ⟨10, 10⟩, true)

/-- An action that creates the first of two targets and then raises. -/
def actPartial : Action := fun _ fs => (writeFile fs t1Name ⟨20, 20⟩, false)

/-! ### Basic lemmas about the node set and the file table -/

theorem mem_insertNode_self (l : List String) (p : String) : p ∈ insertNode l p := by
  unfold insertNode; split
  · assumption
  · simp

theorem mem_insertNode_of_mem {l : List String} {p : String} (q : String) (h : p ∈ l) :
    p ∈ insertNode l q := by
  unfold insertNode; split
  · exact h
  · simp [h]

theorem registerDirFiles_nil (env : Env) : registerDirFiles env [] = env := rfl

theorem registerDirFiles_cons (env : Env) (f : String) (fls : List String) :
    registerDirFiles env (f :: fls) =
      registerDirFiles { env with nodes := insertNode env.nodes (getPath f) } fls := rfl

theorem registerDirFiles_now (env : Env) (fls : List String) :
    (registerDirFiles env fls).now = env.now := by
  induction fls generalizing env with
  | nil => rfl
  | cons f fs ih => rw [registerDirFiles_cons, ih]

theorem registerDirFiles_mono {env : Env} {p : String} (fls : List String)
    (h : p ∈ env.nodes) : p ∈ (registerDirFiles env fls).nodes := by
  induction fls generalizing env with
  | nil => exact h
  | cons f fs ih => rw [registerDirFiles_cons]; exact ih (mem_insertNode_of_mem _ h)

theorem registerDirFiles_mem (env : Env) {fls : List String} {f : String} (h : f ∈ fls) :
    getPath f ∈ (registerDirFiles env fls).nodes := by
  induction fls generalizing env with
  | nil => cases h
  | cons g gs ih =>
      rw [registerDirFiles_cons]
      rcases List.mem_cons.mp h with h | h
      · subst h; exact registerDirFiles_mono _ (mem_insertNode_self _ _)
      · exact ih _ h

theorem addNodeDep_now (env : Env) (fs : FS) (d : String) :
    (addNodeDep env fs d).1.now = env.now := by
  unfold addNodeDep
  cases lookupD fs.dirs d with
  | none => rfl
  | some fls => exact registerDirFiles_now _ _

theorem addNodeDep_mono {env : Env} {p : String} (fs : FS) (d : String)
    (h : p ∈ env.nodes) : p ∈ (addNodeDep env fs d).1.nodes := by
  unfold addNodeDep
  cases lookupD fs.dirs d with
  | none => exact mem_insertNode_of_mem _ h
  | some fls => exact registerDirFiles_mono _ h

theorem runDeps_nil (env : Env) (fs : FS) : runDeps env fs [] = (env, []) := rfl

theorem runDeps_cons (env : Env) (fs : FS) (d : String) (ds : List String) :
    runDeps env fs (d :: ds) =
      ((runDeps (addNodeDep env fs d).1 fs ds).1,
        (addNodeDep env fs d).2 :: (runDeps (addNodeDep env fs d).1 fs ds).2) := rfl

theorem runDeps_now (env : Env) (fs : FS) (D : List String) :
    (runDeps env fs D).1.now = env.now := by
  induction D generalizing env with
  | nil => rfl
  | cons d ds ih => rw [runDeps_cons]; simp only [ih, addNodeDep_now]

theorem runDeps_mono {env : Env} {p : String} (fs : FS) (D : List String)
    (h : p ∈ env.nodes) : p ∈ (runDeps env fs D).1.nodes := by
  induction D generalizing env with
  | nil => exact h
  | cons d ds ih => rw [runDeps_cons]; exact ih (addNodeDep_mono _ _ h)

theorem runDeps_snd (env : Env) (fs : FS) (D : List String) :
    (runDeps env fs D).2 = regDeps fs D := by
  induction D generalizing env with
  | nil => rfl
  | cons d ds ih =>
      rw [runDeps_cons]
      have hd : (addNodeDep env fs d).2 = depResult fs d := by
        unfold addNodeDep depResult
        cases lookupD fs.dirs d <;> rfl
      simp only [ih, hd, regDeps, List.map]

theorem runSources_nil (env : Env) : runSources env [] = (env, []) := rfl

theorem runSources_cons (env : Env) (k v : String) (rest : List (String × String)) :
    runSources env ((k, v) :: rest) =
      ((runSources { env with nodes := insertNode env.nodes (getPath v) } rest).1,
        (k, getPath v) ::
          (runSources { env with nodes := insertNode env.nodes (getPath v) } rest).2) := rfl

theorem runSources_now (env : Env) (S : List (String × String)) :
    (runSources env S).1.now = env.now := by
  induction S generalizing env with
  | nil => rfl
  | cons kv rest ih =>
      obtain ⟨k, v⟩ := kv
      rw [runSources_cons]; exact ih _

theorem runSources_mono {env : Env} {p : String} (S : List (String × String))
    (h : p ∈ env.nodes) : p ∈ (runSources env S).1.nodes := by
  induction S generalizing env with
  | nil => exact h
  | cons kv rest ih =>
      obtain ⟨k, v⟩ := kv
      rw [runSources_cons]
      exact ih (mem_insertNode_of_mem _ h)

theorem runSources_snd (env : Env) (S : List (String × String)) :
    (runSources env S).2 = regPairs S := by
  induction S generalizing env with
  | nil => rfl
  | cons kv rest ih =>
      obtain ⟨k, v⟩ := kv
      rw [runSources_cons]
      simp only [ih, regPairs, List.map]

theorem runSources_mem {env : Env} {S : List (String × String)} {kv : String × String}
    (h : kv ∈ S) : getPath kv.2 ∈ (runSources env S).1.nodes := by
  induction S generalizing env with
  | nil => cases h
  | cons hd rest ih =>
      obtain ⟨k, v⟩ := hd
      rw [runSources_cons]
      rcases List.mem_cons.mp h with h | h
      · subst h
        exact runSources_mono _ (mem_insertNode_self _ _)
      · exact ih h

theorem runTargets_nil (env : Env) : runTargets env [] = (env, .ok []) := rfl

theorem runTargets_cons (env : Env) (k v : String) (rest : List (String × String)) :
    runTargets env ((k, v) :: rest) =
      (if getPath v ∈ env.nodes then (env, .error (.valueError (getPath v)))
       else
        match runTargets { env with nodes := insertNode env.nodes (getPath v),
                                    targets := insertNode env.targets (getPath v) } rest with
        | (e2, .ok rs) => (e2, .ok ((k, getPath v) :: rs))
        | (e2, .error e) => (e2, .error e)) := rfl

theorem runTargets_now (env : Env) (T : List (String × String)) :
    (runTargets env T).1.now = env.now := by
  induction T generalizing env with
  | nil => rfl
  | cons kv rest ih =>
      obtain ⟨k, v⟩ := kv
      rw [runTargets_cons]
      split
      · rfl
      · split
        · rename_i e2 rs heq
          have := ih { env with nodes := insertNode env.nodes (getPath v),
                                targets := insertNode env.targets (getPath v) }
          rw [heq] at this
          exact this
        · rename_i e2 e heq
          have := ih { env with nodes := insertNode env.nodes (getPath v),
                                targets := insertNode env.targets (getPath v) }
          rw [heq] at this
          exact this

theorem runTargets_mono {p : String} (T : List (String × String)) :
    ∀ env : Env, p ∈ env.nodes → p ∈ (runTargets env T).1.nodes := by
  induction T with
  | nil => intro env h; exact h
  | cons kv rest ih =>
      intro env h
      obtain ⟨k, v⟩ := kv
      rw [runTargets_cons]
      split
      · exact h
      · split
        · rename_i e2 rs heq
          have := ih { env with nodes := insertNode env.nodes (getPath v),
                                targets := insertNode env.targets (getPath v) }
            (mem_insertNode_of_mem _ h)
          rw [heq] at this
          exact this
        · rename_i e2 e heq
          have := ih { env with nodes := insertNode env.nodes (getPath v),
                                targets := insertNode env.targets (getPath v) }
            (mem_insertNode_of_mem _ h)
          rw [heq] at this
          exact this

theorem runTargets_ok_val (T : List (String × String)) :
    ∀ (env e3 : Env) (tgts : List (String × String)),
      runTargets env T = (e3, .ok tgts) → tgts = regPairs T := by
  induction T with
  | nil =>
      intro env e3 tgts h
      rw [runTargets_nil] at h
      injection h with h1 h2
      injection h2 with h3
      exact h3.symm
  | cons kv rest ih =>
      intro env e3 tgts h
      obtain ⟨k, v⟩ := kv
      rw [runTargets_cons] at h
      split at h
      · injection h with h1 h2; exact Except.noConfusion h2
      · split at h
        · rename_i e2 rs heq
          injection h with h1 h2
          injection h2 with h3
          rw [← h3, ih _ _ _ heq]
          rfl
        · rename_i e2 e heq
          injection h with h1 h2
          exact Except.noConfusion h2

theorem runTargets_ok_mem (T : List (String × String)) :
    ∀ (env e3 : Env) (tgts : List (String × String)),
      runTargets env T = (e3, .ok tgts) → ∀ kv ∈ T, getPath kv.2 ∈ e3.nodes := by
  induction T with
  | nil => intro env e3 tgts h kv hm; cases hm
  | cons hd rest ih =>
      intro env e3 tgts h kv hm
      obtain ⟨k, v⟩ := hd
      rw [runTargets_cons] at h
      split at h
      · injection h with h1 h2; exact Except.noConfusion h2
      · rename_i hmem
        split at h
        · rename_i e2 rs heq
          injection h with h1 h2
          subst h1
          rcases List.mem_cons.mp hm with hm | hm
          · subst hm
            have hself : getPath v ∈
                (insertNode env.nodes (getPath v)) := mem_insertNode_self _ _
            have := runTargets_mono rest
              { env with nodes := insertNode env.nodes (getPath v),
                         targets := insertNode env.targets (getPath v) } hself
            rw [heq] at this
            exact this
          · exact ih _ _ _ heq kv hm
        · rename_i e2 e heq
          injection h with h1 h2
          exact Except.noConfusion h2

theorem runTargets_conflict (T : List (String × String)) :
    ∀ env : Env,
      ((∃ kv ∈ T, getPath kv.2 ∈ env.nodes) ∨
        ¬ (T.map (fun kv => getPath kv.2)).Nodup) →
      ∃ p, (runTargets env T).2 = .error (.valueError p) := by
  induction T with
  | nil =>
      intro env h
      rcases h with ⟨kv, hm, _⟩ | h
      · cases hm
      · exact absurd List.nodup_nil h
  | cons hd rest ih =>
      intro env h
      obtain ⟨k, v⟩ := hd
      rw [runTargets_cons]
      by_cases hmem : getPath v ∈ env.nodes
      · rw [if_pos hmem]
        exact ⟨getPath v, rfl⟩
      · rw [if_neg hmem]
        have hrest : (∃ kv ∈ rest, getPath kv.2 ∈
            (insertNode env.nodes (getPath v))) ∨
            ¬ (rest.map (fun kv => getPath kv.2)).Nodup := by
          rcases h with ⟨kv, hm, hkv⟩ | h
          · rcases List.mem_cons.mp hm with hm | hm
            · subst hm; exact absurd hkv hmem
            · exact Or.inl ⟨kv, hm, mem_insertNode_of_mem _ hkv⟩
          · rw [List.map_cons, List.nodup_cons] at h
            push_neg at h
            by_cases hmm2 : getPath v ∈ rest.map (fun kv => getPath kv.2)
            · obtain ⟨kv, hm, hkv⟩ := List.mem_map.mp hmm2
              exact Or.inl ⟨kv, hm, by rw [hkv]; exact mem_insertNode_self _ _⟩
            · exact Or.inr (h hmm2)
        obtain ⟨p, hp⟩ := ih
          { env with nodes := insertNode env.nodes (getPath v),
                     targets := insertNode env.targets (getPath v) } hrest
        rcases hre : runTargets
          { env with nodes := insertNode env.nodes (getPath v),
                     targets := insertNode env.targets (getPath v) } rest with ⟨e2, r⟩
        rw [hre] at hp
        cases r with
        | ok rs => exact Except.noConfusion hp
        | error e => exact ⟨p, hp⟩

/-! ### Timestamp lemmas -/

theorem getTimestamp_ok {env : Env} {fs : FS} {p : String} {ts : Nat}
    (h : lookupFile fs p = some ts) (hle : ts ≤ env.now) :
    getTimestamp env fs p false = .ok ts := by
  simp [getTimestamp, h, Nat.not_lt.mpr hle]

theorem getTimestamp_future {env : Env} {fs : FS} {p : String} {ts : Nat}
    (h : lookupFile fs p = some ts) (hlt : env.now < ts) :
    getTimestamp env fs p false = .error (.timestampFuture p) := by
  simp [getTimestamp, h, hlt]

theorem getLatestTsAux_ok {env : Env} {fs : FS} (l : List (Option String))
    (h : ∀ x ∈ l, depExistsOk env fs x = true) :
    getLatestTsAux env fs l = .ok (l.map (tsOf fs)) := by
  induction l with
  | nil => rfl
  | cons x xs ih =>
      have hx := h x (List.mem_cons_self _ _)
      have hxs := ih (fun y hy => h y (List.mem_cons_of_mem _ hy))
      cases x with
      | none => simp [depExistsOk] at hx
      | some p =>
          simp only [depExistsOk] at hx
          rcases hl : lookupFile fs p with _ | ts
          · rw [hl] at hx; simp at hx
          · rw [hl] at hx
            simp only [decide_eq_true_eq] at hx
            simp only [getLatestTsAux, getTimestampItem, getTimestamp_ok hl hx, hxs]
            simp [tsOf, hl]

theorem foldl_max_le_iff (l : List Nat) :
    ∀ a m : Nat, List.foldl max a l ≤ m ↔ a ≤ m ∧ ∀ x ∈ l, x ≤ m := by
  induction l with
  | nil => intro a m; simp
  | cons x xs ih =>
      intro a m
      rw [List.foldl_cons, ih]
      constructor
      · rintro ⟨h1, h2⟩
        refine ⟨le_trans (le_max_left _ _) h1, ?_⟩
        intro y hy
        rcases List.mem_cons.mp hy with hy | hy
        · subst hy; exact le_trans (le_max_right _ _) h1
        · exact h2 y hy
      · rintro ⟨h1, h2⟩
        refine ⟨max_le h1 (h2 x (List.mem_cons_self _ _)), ?_⟩
        intro y hy
        exact h2 y (List.mem_cons_of_mem _ hy)

theorem getLatestTsAux_future {env : Env} {fs : FS} (l : List (Option String))
    (hall : ∀ x ∈ l, ∃ p ts, x = some p ∧ lookupFile fs p = some ts)
    (hfut : ∃ x ∈ l, ∃ p ts, x = some p ∧ lookupFile fs p = some ts ∧ env.now < ts) :
    ∃ q, getLatestTsAux env fs l = .error (.timestampFuture q) := by
  induction l with
  | nil => obtain ⟨x, hm, _⟩ := hfut; cases hm
  | cons x xs ih =>
      obtain ⟨p, ts, hxp, hl⟩ := hall x (List.mem_cons_self _ _)
      subst hxp
      by_cases hlt : env.now < ts
      · refine ⟨p, ?_⟩
        simp only [getLatestTsAux, getTimestampItem, getTimestamp_future hl hlt]
      · obtain ⟨y, hym, q, ts2, hyq, hl2, hlt2⟩ := hfut
        rcases List.mem_cons.mp hym with hym | hym
        · subst hym
          injection hyq with hq
          subst hq
          rw [hl] at hl2
          injection hl2 with hts
          subst hts
          exact absurd hlt2 hlt
        · obtain ⟨r, hr⟩ := ih (fun y hy => hall y (List.mem_cons_of_mem _ hy))
            ⟨y, hym, q, ts2, hyq, hl2, hlt2⟩
          refine ⟨r, ?_⟩
          have hle : ts ≤ env.now := Nat.not_lt.mp hlt
          simp only [getLatestTsAux, getTimestampItem, getTimestamp_ok hl hle, hr]

theorem getLatestTsAux_missing {env : Env} {fs : FS} (l : List (Option String))
    (hall : ∀ x ∈ l, ∃ p, x = some p)
    (hok : ∀ x ∈ l, ∀ p, x = some p → ∀ ts, lookupFile fs p = some ts → ts ≤ env.now)
    (hmiss : ∃ x ∈ l, ∃ p, x = some p ∧ lookupFile fs p = none) :
    ∃ q, getLatestTsAux env fs l = .error (.fileNotFound q) := by
  induction l with
  | nil => obtain ⟨x, hm, _⟩ := hmiss; cases hm
  | cons x xs ih =>
      obtain ⟨p, hxp⟩ := hall x (List.mem_cons_self _ _)
      subst hxp
      rcases hl : lookupFile fs p with _ | ts
      · refine ⟨p, ?_⟩
        simp only [getLatestTsAux, getTimestampItem, getTimestamp, hl]
      · have hle : ts ≤ env.now := hok _ (List.mem_cons_self _ _) p rfl ts hl
        obtain ⟨y, hym, q, hyq, hq⟩ := hmiss
        rcases List.mem_cons.mp hym with hym | hym
        · subst hym
          injection hyq with hq2
          subst hq2
          rw [hl] at hq
          exact Option.noConfusion hq
        · obtain ⟨r, hr⟩ := ih (fun y hy => hall y (List.mem_cons_of_mem _ hy))
            (fun y hy => hok y (List.mem_cons_of_mem _ hy))
            ⟨y, hym, q, hyq, hq⟩
          refine ⟨r, ?_⟩
          simp only [getLatestTsAux, getTimestampItem, getTimestamp_ok hl hle, hr]

/-! ### Freshness characterization -/

theorem isfile_iff (fs : FS) (t : String) :
    isfile fs t = (lookupFile fs t).isSome := by
  unfold isfile lookupFile
  cases lookupL fs.files t <;> rfl

theorem sdlOf_char {env : Env} {fs : FS} {deps : List (Option String)}
    (hd : ∀ x ∈ deps, depExistsOk env fs x = true) :
    sdlOf env fs deps = .ok (if deps.isEmpty then none else some (latestOf fs deps)) := by
  unfold sdlOf
  by_cases he : deps.isEmpty
  · rw [if_pos he, if_pos he]
  · rw [if_neg he, if_neg he]
    simp only [getLatestTs, getLatestTsAux_ok deps hd, latestOf]

theorem tlOf_char {env : Env} {fs : FS} {t : String}
    (ht : targetTimeOk env fs t = true) :
    tlOf env fs t = .ok (lookupFile fs t) := by
  unfold tlOf
  rcases hl : lookupFile fs t with _ | m
  · rw [isfile_iff, hl]
    rfl
  · have hf : isfile fs t = true := by rw [isfile_iff, hl]; rfl
    have hle : m ≤ env.now := by
      simp only [targetTimeOk, hl, decide_eq_true_eq] at ht
      exact ht
    rw [hf]
    simp only [getTimestamp_ok hl hle, if_true]

theorem checkTargetOk_char {env : Env} {fs : FS} {t : String} {deps : List (Option String)}
    (hd : ∀ x ∈ deps, depExistsOk env fs x = true)
    (ht : targetTimeOk env fs t = true) :
    checkTargetOk env fs t deps =
      .ok (truthyCombine (lookupFile fs t)
        (if deps.isEmpty then none else some (latestOf fs deps))) := by
  unfold checkTargetOk
  rw [sdlOf_char hd, tlOf_char ht]

theorem truthyCombine_iff (fs : FS) (t : String) (deps : List (Option String)) :
    truthyCombine (lookupFile fs t)
        (if deps.isEmpty then none else some (latestOf fs deps)) = true ↔
      specFreshOne fs t deps := by
  rcases hl : lookupFile fs t with _ | m
  · simp only [specFreshOne, hl]
    constructor
    · intro h
      by_cases he : deps.isEmpty <;> simp only [he, if_true, if_false] at h <;>
        exact absurd h (by simp [truthyCombine])
    · rintro ⟨m, hm, _⟩
      exact Option.noConfusion hm
  · by_cases he : deps.isEmpty
    · have hnil : deps = [] := List.isEmpty_iff.mp he
      subst hnil
      simp [truthyCombine, specFreshOne, hl]
    · have hne : deps ≠ [] := by
        intro hc
        subst hc
        exact he rfl
      rw [if_neg he]
      simp only [truthyCombine, specFreshOne, hl, Bool.and_eq_true, Bool.or_eq_true,
        decide_eq_true_eq]
      constructor
      · rintro ⟨h0, hle⟩
        refine ⟨m, rfl, h0, Or.inr ?_⟩
        rcases hle with hle | hle
        · rw [hle]; exact Nat.zero_le m
        · exact hle
      · rintro ⟨m2, hm2, h0, hle⟩
        injection hm2 with hm2
        subst hm2
        rcases hle with hle | hle
        · exact absurd hle hne
        · exact ⟨h0, Or.inr hle⟩

theorem allTargetsOk_char {env : Env} {fs : FS} {deps : List (Option String)}
    (tpaths : List String)
    (hd : ∀ x ∈ deps, depExistsOk env fs x = true)
    (ht : ∀ t ∈ tpaths, targetTimeOk env fs t = true) :
    ∃ b, allTargetsOk env fs tpaths deps = .ok b ∧
      (b = true ↔ specFresh fs tpaths deps) := by
  induction tpaths with
  | nil => exact ⟨true, rfl, by simp [specFresh]⟩
  | cons t ts ih =>
      have hco := checkTargetOk_char hd (ht t (List.mem_cons_self _ _))
      have hiff := truthyCombine_iff fs t deps
      obtain ⟨b, hb, hbiff⟩ := ih (fun u hu => ht u (List.mem_cons_of_mem _ hu))
      rcases htc : truthyCombine (lookupFile fs t)
          (if deps.isEmpty then none else some (latestOf fs deps)) with _ | _
      · refine ⟨false, ?_, ?_⟩
        · rw [htc] at hco
          simp only [allTargetsOk, hco]
        · constructor
          · intro h
            exact Bool.noConfusion h
          · intro hall
            have hone := hall t (List.mem_cons_self _ _)
            rw [← hiff] at hone
            rw [htc] at hone
            exact hone
      · refine ⟨b, ?_, ?_⟩
        · rw [htc] at hco
          simp only [allTargetsOk, hco]
          exact hb
        · rw [hbiff]
          rw [htc] at hiff
          constructor
          · intro hall u hu
            rcases List.mem_cons.mp hu with hu | hu
            · subst hu; exact hiff.mp rfl
            · exact hall u hu
          · intro hall u hu
            exact hall u (List.mem_cons_of_mem _ hu)

theorem checkTargetOk_err {env : Env} {fs : FS} {t : String} {deps : List (Option String)}
    {e : BuildError} (hne : deps ≠ [])
    (herr : getLatestTsAux env fs deps = .error e) :
    checkTargetOk env fs t deps = .error e := by
  have he : deps.isEmpty = false := by
    cases deps with
    | nil => exact absurd rfl hne
    | cons x xs => rfl
  unfold checkTargetOk sdlOf getLatestTs
  rw [he, herr]
  rfl

theorem allTargetsOk_err {env : Env} {fs : FS} {deps : List (Option String)}
    {t : String} {ts : List String} {e : BuildError}
    (herr : checkTargetOk env fs t deps = .error e) :
    allTargetsOk env fs (t :: ts) deps = .error e := by
  simp only [allTargetsOk, herr]

/-! ### Build staging lemmas -/

theorem build_eq_conflict {env : Env} {fs : FS} {act : Action}
    {T S K : List (String × String)} {D : List String} {env3 : Env} {e : BuildError}
    (h : runTargets (runSources (runDeps env fs D).1 S).1 T = (env3, .error e)) :
    build env fs act T S D K = ⟨env3, fs, false, .error e⟩ := by
  unfold build
  rw [h]

theorem build_eq_ok {env : Env} {fs : FS} {act : Action}
    {T S K : List (String × String)} {D : List String} {env3 : Env}
    {tgts : List (String × String)}
    (h : runTargets (runSources (runDeps env fs D).1 S).1 T = (env3, .ok tgts)) :
    build env fs act T S D K =
      (if namesOk tgts (regPairs S) K = false then
        ⟨env3, fs, false, .error .assertionError⟩
      else
        match allTargetsOk env3 fs (tgts.map Prod.snd) (depsTuple fs S D) with
        | .error e => ⟨env3, fs, false, .error e⟩
        | .ok true => ⟨env3, fs, false, .ok tgts⟩
        | .ok false =>
            match act (tgts ++ regPairs S ++ K) fs with
            | (fs1, true) => postBuild env3 fs1 tgts
            | (fs1, false) => postBuild env3 (deleteTargets fs1 (tgts.map Prod.snd)) tgts) := by
  unfold build depsTuple
  rw [h, runSources_snd, runDeps_snd]

theorem postBuild_ran (env : Env) (fs : FS) (tgts : List (String × String)) :
    (postBuild env fs tgts).ran = true := by
  unfold postBuild
  split <;> rfl

/-! ### Deletion, pinning and the missing-target check -/

theorem deleteTargets_nil (fs : FS) : deleteTargets fs [] = fs := rfl

theorem deleteTargets_cons (fs : FS) (t : String) (ts : List String) :
    deleteTargets fs (t :: ts) =
      deleteTargets (if isfile fs t then removeFile fs t else fs) ts := rfl

theorem lookupL_removeL (t p : String) (l : List (String × FileMeta)) :
    lookupL (removeL l t) p = if t = p then none else lookupL l p := by
  induction l with
  | nil =>
      unfold removeL lookupL
      split <;> rfl
  | cons qm rest ih =>
      obtain ⟨q, m⟩ := qm
      by_cases hqt : q = t
      · subst hqt
        simp only [removeL, if_pos rfl, lookupL]
        by_cases hqp : q = p
        · subst hqp
          simp [lookupL, ih]
        · simp [lookupL, hqp, ih]
      · simp only [removeL, if_neg hqt, lookupL]
        by_cases hqp : q = p
        · subst hqp
          have htp : ¬ t = q := fun h => hqt h.symm
          simp [htp]
        · simp [hqp, ih]

theorem isfile_removeFile (fs : FS) (t p : String) :
    isfile (removeFile fs t) p = if t = p then false else isfile fs p := by
  unfold isfile removeFile
  rw [lookupL_removeL]
  split <;> rfl

theorem isfile_deleteTargets_of_not (tpaths : List String) :
    ∀ fs : FS, ∀ p : String, isfile fs p = false →
      isfile (deleteTargets fs tpaths) p = false := by
  induction tpaths with
  | nil => intro fs p h; exact h
  | cons t ts ih =>
      intro fs p h
      rw [deleteTargets_cons]
      apply ih
      split
      · rw [isfile_removeFile]
        split
        · rfl
        · exact h
      · exact h

theorem isfile_deleteTargets {p : String} (tpaths : List String) :
    ∀ fs : FS, p ∈ tpaths → isfile (deleteTargets fs tpaths) p = false := by
  induction tpaths with
  | nil => intro fs h; cases h
  | cons t ts ih =>
      intro fs h
      rw [deleteTargets_cons]
      rcases List.mem_cons.mp h with h | h
      · subst h
        apply isfile_deleteTargets_of_not
        rcases hf : isfile fs p with _ | _
        · rw [if_neg (by simp)]
          exact hf
        · rw [if_pos rfl]
          rw [isfile_removeFile, if_pos rfl]
      · exact ih _ h

theorem lookupL_setMetaL (t p : String) (now : Nat) (l : List (String × FileMeta)) :
    lookupL (setMetaL l t now) p =
      if t = p then (lookupL l p).map (fun _ => (⟨now, now⟩ : FileMeta))
      else lookupL l p := by
  induction l with
  | nil =>
      unfold setMetaL lookupL
      split <;> rfl
  | cons qm rest ih =>
      obtain ⟨q, m⟩ := qm
      by_cases hqt : q = t
      · subst hqt
        simp only [setMetaL, if_pos rfl, lookupL]
        by_cases hqp : q = p
        · subst hqp
          simp [lookupL]
        · simp [lookupL, hqp, ih]
      · simp only [setMetaL, if_neg hqt, lookupL]
        by_cases hqp : q = p
        · subst hqp
          have htp : ¬ t = q := fun h => hqt h.symm
          simp [htp]
        · simp [hqp, ih]

theorem isfile_setUtime (fs : FS) (t p : String) (now : Nat) :
    isfile (setUtime fs t now) p = isfile fs p := by
  unfold isfile setUtime
  rw [lookupL_setMetaL]
  split
  · cases lookupL fs.files p <;> rfl
  · rfl

theorem lookupMeta_setUtime_self {fs : FS} {p : String} (now : Nat)
    (h : isfile fs p = true) :
    lookupMeta (setUtime fs p now) p = some ⟨now, now⟩ := by
  unfold lookupMeta setUtime
  rw [lookupL_setMetaL, if_pos rfl]
  unfold isfile at h
  rcases hl : lookupL fs.files p with _ | m
  · rw [hl] at h
    exact Bool.noConfusion h
  · rfl

theorem lookupMeta_setUtime_ne {t p : String} (fs : FS) (now : Nat) (h : ¬ t = p) :
    lookupMeta (setUtime fs t now) p = lookupMeta fs p := by
  unfold lookupMeta setUtime
  rw [lookupL_setMetaL, if_neg h]

theorem pinTimestamps_nil (fs : FS) (now : Nat) : pinTimestamps fs [] now = fs := rfl

theorem pinTimestamps_cons (fs : FS) (t : String) (ts : List String) (now : Nat) :
    pinTimestamps fs (t :: ts) now = pinTimestamps (setUtime fs t now) ts now := rfl

theorem pinTimestamps_keep {p : String} {now : Nat} (tpaths : List String) :
    ∀ fs : FS, lookupMeta fs p = some ⟨now, now⟩ →
      lookupMeta (pinTimestamps fs tpaths now) p = some ⟨now, now⟩ := by
  induction tpaths with
  | nil => intro fs h; exact h
  | cons t ts ih =>
      intro fs h
      rw [pinTimestamps_cons]
      apply ih
      by_cases htp : t = p
      · subst htp
        exact lookupMeta_setUtime_self now (by unfold isfile; unfold lookupMeta at h; rw [h]; rfl)
      · rw [lookupMeta_setUtime_ne fs now htp]
        exact h

theorem lookupMeta_pinTimestamps {p : String} {now : Nat} (tpaths : List String) :
    ∀ fs : FS, p ∈ tpaths → isfile fs p = true →
      lookupMeta (pinTimestamps fs tpaths now) p = some ⟨now, now⟩ := by
  induction tpaths with
  | nil => intro fs h; cases h
  | cons t ts ih =>
      intro fs h hf
      rw [pinTimestamps_cons]
      rcases List.mem_cons.mp h with h | h
      · subst h
        exact pinTimestamps_keep ts _ (lookupMeta_setUtime_self now hf)
      · exact ih _ h (by rw [isfile_setUtime]; exact hf)

theorem firstMissing_none (tpaths : List String) :
    ∀ fs : FS, firstMissing fs tpaths = none → ∀ p ∈ tpaths, isfile fs p = true := by
  induction tpaths with
  | nil => intro fs h p hp; cases hp
  | cons t ts ih =>
      intro fs h p hp
      unfold firstMissing at h
      by_cases hf : isfile fs t = true
      · rw [if_pos hf] at h
        rcases List.mem_cons.mp hp with hp | hp
        · subst hp; exact hf
        · exact ih fs h p hp
      · rw [if_neg hf] at h
        exact Option.noConfusion h

theorem firstMissing_cons_missing {fs : FS} {t : String} (ts : List String)
    (h : isfile fs t = false) : firstMissing fs (t :: ts) = some t := by
  unfold firstMissing
  rw [if_neg (by rw [h]; exact Bool.noConfusion)]

theorem firstMissing_some_of_missing (tpaths : List String) :
    ∀ fs : FS, (∃ p ∈ tpaths, isfile fs p = false) →
      ∃ q, firstMissing fs tpaths = some q := by
  induction tpaths with
  | nil => intro fs h; obtain ⟨p, hp, _⟩ := h; cases hp
  | cons t ts ih =>
      intro fs h
      rcases hf : isfile fs t with _ | _
      · exact ⟨t, firstMissing_cons_missing ts hf⟩
      · obtain ⟨p, hp, hpf⟩ := h
        rcases List.mem_cons.mp hp with hp | hp
        · subst hp
          rw [hf] at hpf
          exact Bool.noConfusion hpf
        · obtain ⟨q, hq⟩ := ih fs ⟨p, hp, hpf⟩
          refine ⟨q, ?_⟩
          unfold firstMissing
          rw [if_pos (by rw [hf]), hq]

/-! ### Helper lemmas for the claim theorems -/

theorem noConflict_elim {env : Env} {fs : FS} {T S : List (String × String)}
    {D : List String} (hc : noConflict env fs T S D = true) :
    ∃ env3, runTargets (runSources (runDeps env fs D).1 S).1 T =
      (env3, .ok (regPairs T)) := by
  unfold noConflict at hc
  rcases hre : runTargets (runSources (runDeps env fs D).1 S).1 T with ⟨e3, r⟩
  rw [hre] at hc
  cases r with
  | ok tgts =>
      have hv := runTargets_ok_val T _ _ _ hre
      exact ⟨e3, by rw [hv]⟩
  | error e => exact Bool.noConfusion hc

theorem depExistsOk_now_congr {e1 e2 : Env} (fs : FS) (x : Option String)
    (h : e1.now = e2.now) : depExistsOk e1 fs x = depExistsOk e2 fs x := by
  cases x with
  | none => rfl
  | some p =>
      simp only [depExistsOk]
      cases lookupFile fs p with
      | none => rfl
      | some ts => rw [h]

theorem targetTimeOk_now_congr {e1 e2 : Env} (fs : FS) (t : String)
    (h : e1.now = e2.now) : targetTimeOk e1 fs t = targetTimeOk e2 fs t := by
  simp only [targetTimeOk]
  cases lookupFile fs t with
  | none => rfl
  | some ts => rw [h]

theorem stage_now {env : Env} {fs : FS} {T S : List (String × String)}
    {D : List String} {env3 : Env} {r : Except BuildError (List (String × String))}
    (h : runTargets (runSources (runDeps env fs D).1 S).1 T = (env3, r)) :
    env3.now = env.now := by
  have h1 : env3 = (runTargets (runSources (runDeps env fs D).1 S).1 T).1 := by
    rw [h]
  rw [h1, runTargets_now, runSources_now, runDeps_now]

theorem postBuild_env (env : Env) (fs : FS) (tgts : List (String × String)) :
    (postBuild env fs tgts).env = env := by
  unfold postBuild
  split <;> rfl

theorem postBuild_eq_missing {env : Env} {fs : FS} {tgts : List (String × String)}
    {t : String} (h : firstMissing fs (tgts.map Prod.snd) = some t) :
    postBuild env fs tgts = ⟨env, fs, true, .error (.buildFailed t)⟩ := by
  unfold postBuild
  rw [h]

theorem postBuild_eq_done {env : Env} {fs : FS} {tgts : List (String × String)}
    (h : firstMissing fs (tgts.map Prod.snd) = none) :
    postBuild env fs tgts =
      ⟨env, pinTimestamps fs (tgts.map Prod.snd) env.now, true, .ok tgts⟩ := by
  unfold postBuild
  rw [h]

theorem build_ok_env {env : Env} {fs : FS} {act : Action}
    {T S K : List (String × String)} {D : List String}
    {tgts2 : List (String × String)}
    (h : (build env fs act T S D K).result = .ok tgts2) :
    ∃ env3, runTargets (runSources (runDeps env fs D).1 S).1 T =
        (env3, .ok (regPairs T)) ∧
      (build env fs act T S D K).env = env3 := by
  rcases hre : runTargets (runSources (runDeps env fs D).1 S).1 T with ⟨e3, r⟩
  cases r with
  | error e =>
      rw [build_eq_conflict hre] at h
      exact Except.noConfusion h
  | ok tg =>
      have hv := runTargets_ok_val T _ _ _ hre
      subst hv
      refine ⟨e3, rfl, ?_⟩
      rw [build_eq_ok hre]
      split
      · rfl
      · split
        · rfl
        · rfl
        · rcases act (regPairs T ++ regPairs S ++ K) fs with ⟨fs1, flag⟩
          cases flag
          · exact postBuild_env _ _ _
          · exact postBuild_env _ _ _

theorem build_conflict_of_runTargets {env : Env} {fs : FS} {act : Action}
    {T S K : List (String × String)} {D : List String}
    (h : ∃ p, (runTargets (runSources (runDeps env fs D).1 S).1 T).2 =
      .error (.valueError p)) :
    ∃ p, (build env fs act T S D K).result = .error (.valueError p) ∧
      (build env fs act T S D K).ran = false := by
  obtain ⟨p, hp⟩ := h
  rcases hre : runTargets (runSources (runDeps env fs D).1 S).1 T with ⟨e3, r⟩
  rw [hre] at hp
  cases r with
  | ok tg => exact Except.noConfusion hp
  | error e =>
      injection hp with hpe
      subst hpe
      rw [build_eq_conflict hre]
      exact ⟨p, rfl, rfl⟩

theorem runDeps_mem_file {fs : FS} {d : String} (D : List String) :
    ∀ env : Env, d ∈ D → lookupD fs.dirs d = none →
      getPath d ∈ (runDeps env fs D).1.nodes := by
  induction D with
  | nil => intro env hd _; cases hd
  | cons d0 ds ih =>
      intro env hd hdir
      rw [runDeps_cons]
      rcases List.mem_cons.mp hd with hd | hd
      · subst hd
        apply runDeps_mono
        unfold addNodeDep
        rw [hdir]
        exact mem_insertNode_self _ _
      · exact ih _ hd hdir

theorem runDeps_mem_dir {fs : FS} {d f : String} {fls : List String} (D : List String) :
    ∀ env : Env, d ∈ D → lookupD fs.dirs d = some fls → f ∈ fls →
      getPath f ∈ (runDeps env fs D).1.nodes := by
  induction D with
  | nil => intro env hd _ _; cases hd
  | cons d0 ds ih =>
      intro env hd hdir hf
      rw [runDeps_cons]
      rcases List.mem_cons.mp hd with hd | hd
      · subst hd
        apply runDeps_mono
        unfold addNodeDep
        rw [hdir]
        exact registerDirFiles_mem _ hf
      · exact ih _ hd hdir hf

/-! ### Claim C4 -/

/-- Claim C4 (amended): for a request that raises no name-overlap,
conflict, or timestamp error, the request is skipped — the action is not
invoked, the resolved target paths are returned, and the file system is
untouched — if and only if every target file exists with a NONZERO
modification time that is at least the latest modification time among
all sources and dependencies (if any); otherwise the action is invoked.
(The nonzero-mtime condition is forced by Python float truthiness:
`_check_target_ok` treats an mtime of exactly `0.0` like a missing
target.) -/
theorem c4_skip_iff (env : Env) (fs : FS) (act : Action)
    (T S K : List (String × String)) (D : List String)
    (hn : namesOk (regPairs T) (regPairs S) K = true)
    (hc : noConflict env fs T S D = true)
    (ht : timesOk env fs T S D = true) :
    ((build env fs act T S D K).ran = false ∧
      (build env fs act T S D K).result = .ok (regPairs T) ∧
      (build env fs act T S D K).fs = fs) ↔
    specFresh fs ((regPairs T).map Prod.snd) (depsTuple fs S D) := by
  obtain ⟨env3, hre⟩ := noConflict_elim hc
  have hnow := stage_now hre
  rw [build_eq_ok hre, hn, if_neg (by simp)]
  unfold timesOk at ht
  rw [Bool.and_eq_true] at ht
  obtain ⟨htd, htt⟩ := ht
  have hd : ∀ x ∈ depsTuple fs S D, depExistsOk env3 fs x = true := by
    intro x hx
    rw [depExistsOk_now_congr fs x hnow]
    exact List.all_eq_true.mp htd x hx
  have ht2 : ∀ t ∈ (regPairs T).map Prod.snd, targetTimeOk env3 fs t = true := by
    intro t ht3
    rw [targetTimeOk_now_congr fs t hnow]
    exact List.all_eq_true.mp htt t ht3
  obtain ⟨b, hball, hbiff⟩ := allTargetsOk_char ((regPairs T).map Prod.snd) hd ht2
  rw [hball]
  cases b with
  | true => exact iff_of_true ⟨rfl, rfl, rfl⟩ (hbiff.mp rfl)
  | false =>
      rcases hact : act (regPairs T ++ regPairs S ++ K) fs with ⟨fs1, flag⟩
      refine iff_of_false ?_ (fun hs => Bool.noConfusion (hbiff.mpr hs))
      rintro ⟨h1, _⟩
      cases flag <;> (simp only [postBuild_ran] at h1; exact Bool.noConfusion h1)

/-- Counterexample for C4 as stated: the single target exists and there
are no sources or dependencies, so the claim says the request is
skipped; but the code treats the target's mtime of `0` as falsy and
invokes the action. -/
theorem c4_cex :
    isfile fsZ tName = true ∧
    (build envW fsZ actMakeT [(dstKey, tName)] [] [] []).ran = true := by
  decide

/-- Witness for `c4_skip_iff` at a concrete fresh request. -/
theorem c4_skip_iff_witness :
    namesOk (regPairs tgtW) (regPairs srcW) [] = true ∧
    noConflict envW fsW tgtW srcW [] = true ∧
    timesOk envW fsW tgtW srcW [] = true ∧
    (((build envW fsW actNoop tgtW srcW [] []).ran = false ∧
      (build envW fsW actNoop tgtW srcW [] []).result = .ok (regPairs tgtW) ∧
      (build envW fsW actNoop tgtW srcW [] []).fs = fsW) ↔
      specFresh fsW ((regPairs tgtW).map Prod.snd) (depsTuple fsW srcW [])) :=
  ⟨by decide, by decide, by decide,
    c4_skip_iff envW fsW actNoop tgtW srcW [] [] (by decide) (by decide) (by decide)⟩

/-! ### Claim C1 -/

/-- Claim C1 (amended): when a build call returns successfully without
invoking the action (the fresh-skip case — in particular when every
target is newer than all sources and dependencies), the action is
invoked ZERO times, and a second identical call on the same engine is
NOT a no-op: it raises the conflict `ValueError` on the first target,
because the first call already registered every target path as a known
node of the engine. -/
theorem c1_second_call_conflict (env : Env) (fs : FS) (act : Action)
    (k v : String) (rest S K : List (String × String)) (D : List String)
    (h1 : (build env fs act ((k, v) :: rest) S D K).ran = false)
    (h2 : (build env fs act ((k, v) :: rest) S D K).result =
      .ok (regPairs ((k, v) :: rest))) :
    (build (build env fs act ((k, v) :: rest) S D K).env
        (build env fs act ((k, v) :: rest) S D K).fs
        act ((k, v) :: rest) S D K).ran = false ∧
    (build (build env fs act ((k, v) :: rest) S D K).env
        (build env fs act ((k, v) :: rest) S D K).fs
        act ((k, v) :: rest) S D K).result = .error (.valueError (getPath v)) := by
  obtain ⟨env3, hre, henv⟩ := build_ok_env h2
  have hmem : getPath v ∈ env3.nodes :=
    runTargets_ok_mem _ _ _ _ hre (k, v) (List.mem_cons_self _ _)
  rw [henv]
  have hmem2 : getPath v ∈
      (runSources (runDeps env3 (build env fs act ((k, v) :: rest) S D K).fs D).1
        S).1.nodes :=
    runSources_mono _ (runDeps_mono _ _ hmem)
  have hconf : runTargets
      (runSources (runDeps env3 (build env fs act ((k, v) :: rest) S D K).fs D).1 S).1
      ((k, v) :: rest) =
      ((runSources (runDeps env3 (build env fs act ((k, v) :: rest) S D K).fs D).1
          S).1,
        .error (.valueError (getPath v))) := by
    rw [runTargets_cons, if_pos hmem2]
  rw [build_eq_conflict hconf]
  exact ⟨rfl, rfl⟩

/-- Counterexample for C1 as stated: with the target (mtime 50) newer
than the source (mtime 10), the FIRST call already skips — the action is
invoked zero times, not once — and the second identical call raises the
conflict `ValueError` instead of returning the same target paths. -/
theorem c1_cex :
    (build envW fsW actNoop tgtW srcW [] []).ran = false ∧
    (build envW fsW actNoop tgtW srcW [] []).result = .ok (regPairs tgtW) ∧
    (build (build envW fsW actNoop tgtW srcW [] []).env
        (build envW fsW actNoop tgtW srcW [] []).fs
        actNoop tgtW srcW [] []).result = .error (.valueError tName) := by
  decide

/-- Witness for `c1_second_call_conflict` on the concrete fresh request. -/
theorem c1_second_call_conflict_witness :
    (build envW fsW actNoop ((dstKey, tName) :: []) srcW [] []).ran = false ∧
    (build envW fsW actNoop ((dstKey, tName) :: []) srcW [] []).result =
      .ok (regPairs ((dstKey, tName) :: [])) ∧
    ((build (build envW fsW actNoop ((dstKey, tName) :: []) srcW [] []).env
        (build envW fsW actNoop ((dstKey, tName) :: []) srcW [] []).fs
        actNoop ((dstKey, tName) :: []) srcW [] []).ran = false ∧
      (build (build envW fsW actNoop ((dstKey, tName) :: []) srcW [] []).env
        (build envW fsW actNoop ((dstKey, tName) :: []) srcW [] []).fs
        actNoop ((dstKey, tName) :: []) srcW [] []).result =
        .error (.valueError (getPath tName))) :=
  ⟨by decide, by decide,
    c1_second_call_conflict envW fsW actNoop dstKey tName [] srcW [] []
      (by decide) (by decide)⟩

/-! ### Claim C5 -/

/-- Claim C5 (confirmed): if any declared target path, after
canonicalization, is already registered on the engine as any kind of
node — from any earlier request (`env.nodes`), or from this same request
as a source, as a dependency (a plain file dependency or a file inside a
directory dependency), or as an earlier duplicate target — the build
fails with the conflict `ValueError` and the action is not invoked.  The
guard is over `env.nodes`, which only grows, so it holds for the whole
engine lifetime. -/
theorem c5_conflict_guard (env : Env) (fs : FS) (act : Action)
    (T S K : List (String × String)) (D : List String)
    (h : (∃ kv ∈ T, getPath kv.2 ∈ env.nodes ∨
            (∃ kv2 ∈ S, getPath kv.2 = getPath kv2.2) ∨
            (∃ d ∈ D, ∃ fls, lookupD fs.dirs d = some fls ∧
              ∃ f ∈ fls, getPath kv.2 = getPath f) ∨
            (∃ d ∈ D, lookupD fs.dirs d = none ∧ getPath kv.2 = getPath d)) ∨
          ¬ (T.map (fun kv => getPath kv.2)).Nodup) :
    ∃ p, (build env fs act T S D K).result = .error (.valueError p) ∧
      (build env fs act T S D K).ran = false := by
  apply build_conflict_of_runTargets
  apply runTargets_conflict
  rcases h with ⟨kv, hin, hkv⟩ | h
  · refine Or.inl ⟨kv, hin, ?_⟩
    rcases hkv with hkv | ⟨kv2, hin2, hkv⟩ | ⟨d, hd, fls, hdir, f, hf, hkv⟩ |
      ⟨d, hd, hdir, hkv⟩
    · exact runSources_mono _ (runDeps_mono _ _ hkv)
    · rw [hkv]
      exact runSources_mem hin2
    · rw [hkv]
      exact runSources_mono _ (runDeps_mem_dir D _ hd hdir hf)
    · rw [hkv]
      exact runSources_mono _ (runDeps_mem_file D _ hd hdir)
  · exact Or.inr h

/-- Witness for `c5_conflict_guard`: the engine already knows `tName`
as a node, and a request redeclaring it as a target fails with the
conflict error. -/
theorem c5_conflict_guard_witness :
    ((∃ kv ∈ tgtW, getPath kv.2 ∈ envN.nodes ∨
        (∃ kv2 ∈ ([] : List (String × String)), getPath kv.2 = getPath kv2.2) ∨
        (∃ d ∈ ([] : List String), ∃ fls, lookupD fsW.dirs d = some fls ∧
          ∃ f ∈ fls, getPath kv.2 = getPath f) ∨
        (∃ d ∈ ([] : List String), lookupD fsW.dirs d = none ∧
          getPath kv.2 = getPath d)) ∨
      ¬ (tgtW.map (fun kv => getPath kv.2)).Nodup) ∧
    (∃ p, (build envN fsW actNoop tgtW [] [] []).result =
        .error (.valueError p) ∧
      (build envN fsW actNoop tgtW [] [] []).ran = false) :=
  ⟨by decide, c5_conflict_guard envN fsW actNoop tgtW [] [] [] (by decide)⟩

/-! ### Claim C3 -/

/-- Claim C3 (amended): when a declared source file is missing on disk
AND a declared target path is already a known node of the engine, the
build fails with the CONFLICT error, not the missing-file error:
dependencies and sources are registered before targets, but the baseline
timestamp — which is what surfaces a missing source — is only computed
AFTER target registration, inside the staleness check, so the conflict
check fires first. -/
theorem c3_conflict_wins (env : Env) (fs : FS) (act : Action)
    (T S K : List (String × String)) (D : List String)
    (hmiss : ∃ kv ∈ S, lookupFile fs (getPath kv.2) = none)
    (hknown : ∃ kv ∈ T, getPath kv.2 ∈ env.nodes) :
    ∃ p, (build env fs act T S D K).result = .error (.valueError p) ∧
      (build env fs act T S D K).ran = false := by
  apply build_conflict_of_runTargets
  apply runTargets_conflict
  obtain ⟨kv, hin, hmem⟩ := hknown
  exact Or.inl ⟨kv, hin, runSources_mono _ (runDeps_mono _ _ hmem)⟩

/-- Counterexample for C3 as stated: after one successful (skipped)
request that registered `tName` as a source and `uName` as a target, a
second request with a missing source and target `tName` fails with the
conflict `ValueError`, not with `FileNotFoundError`. -/
theorem c3_cex :
    lookupFile fsC3 missingName = none ∧
    (build envW fsC3 actNoop [(dstKey, uName)] [(srcKey, tName)] [] []).result =
      .ok [(dstKey, uName)] ∧
    (build (build envW fsC3 actNoop [(dstKey, uName)] [(srcKey, tName)] [] []).env
        (build envW fsC3 actNoop [(dstKey, uName)] [(srcKey, tName)] [] []).fs
        actNoop [(dstKey, tName)] [(srcKey, missingName)] [] []).result =
      .error (.valueError tName) := by
  decide

/-- Witness for `c3_conflict_wins`. -/
theorem c3_conflict_wins_witness :
    (∃ kv ∈ [(srcKey, missingName)], lookupFile fsW (getPath kv.2) = none) ∧
    (∃ kv ∈ tgtW, getPath kv.2 ∈ envN.nodes) ∧
    (∃ p, (build envN fsW actNoop tgtW [(srcKey, missingName)] [] []).result =
        .error (.valueError p) ∧
      (build envN fsW actNoop tgtW [(srcKey, missingName)] [] []).ran = false) :=
  ⟨by decide, by decide,
    c3_conflict_wins envN fsW actNoop tgtW [(srcKey, missingName)] [] []
      (by decide) (by decide)⟩

theorem mem_regPairs_snd {T : List (String × String)} {kv : String × String}
    (h : kv ∈ T) : getPath kv.2 ∈ (regPairs T).map Prod.snd :=
  List.mem_map.mpr ⟨(kv.1, getPath kv.2), List.mem_map.mpr ⟨kv, h, rfl⟩, rfl⟩

/-! ### Claim C2 -/

/-- Claim C2 (amended): when the action raises after creating some but
not all of its declared target files, the build raises the build-failed
error (naming the first missing target, not wrapping the underlying
cause), but the engine DELETES the partially written target files first:
no declared target file remains on disk after the failure. -/
theorem c2_partial_deleted (env : Env) (fs : FS) (act : Action)
    (k v : String) (rest S K : List (String × String)) (D : List String) (fs1 : FS)
    (hc : noConflict env fs ((k, v) :: rest) S D = true)
    (hn : namesOk (regPairs ((k, v) :: rest)) (regPairs S) K = true)
    (hs : checkResult env fs ((k, v) :: rest) S D = .ok false)
    (hact : act (regPairs ((k, v) :: rest) ++ regPairs S ++ K) fs = (fs1, false)) :
    (build env fs act ((k, v) :: rest) S D K).ran = true ∧
    (build env fs act ((k, v) :: rest) S D K).result =
      .error (.buildFailed (getPath v)) ∧
    ∀ kv2 ∈ (k, v) :: rest,
      isfile (build env fs act ((k, v) :: rest) S D K).fs (getPath kv2.2) = false := by
  obtain ⟨env3, hre⟩ := noConflict_elim hc
  have hcr : checkResult env fs ((k, v) :: rest) S D =
      allTargetsOk env3 fs ((regPairs ((k, v) :: rest)).map Prod.snd)
        (depsTuple fs S D) := by
    unfold checkResult
    rw [hre]
  rw [hcr] at hs
  have hbeq : build env fs act ((k, v) :: rest) S D K =
      postBuild env3
        (deleteTargets fs1 ((regPairs ((k, v) :: rest)).map Prod.snd))
        (regPairs ((k, v) :: rest)) := by
    rw [build_eq_ok hre, hn, if_neg (by simp), hs, hact]
  have hdel : isfile
      (deleteTargets fs1 ((regPairs ((k, v) :: rest)).map Prod.snd))
      (getPath v) = false :=
    isfile_deleteTargets _ _ (mem_regPairs_snd (List.mem_cons_self _ _))
  have hfm : firstMissing
      (deleteTargets fs1 ((regPairs ((k, v) :: rest)).map Prod.snd))
      ((regPairs ((k, v) :: rest)).map Prod.snd) = some (getPath v) := by
    have hsplit : (regPairs ((k, v) :: rest)).map Prod.snd =
        getPath v :: (regPairs rest).map Prod.snd := rfl
    rw [hsplit]
    exact firstMissing_cons_missing _ hdel
  rw [hbeq, postBuild_eq_missing hfm]
  refine ⟨rfl, rfl, ?_⟩
  intro kv2 hkv2
  exact isfile_deleteTargets _ _ (mem_regPairs_snd hkv2)

/-- Counterexample for C2 as stated: the action creates target `t1Name`
(of two declared targets) and then raises; the claim says the partial
output stays on disk, but the engine deletes it and raises the
build-failed error. -/
theorem c2_cex :
    (build envW fsP actPartial [(n1Key, t1Name), (n2Key, t2Name)] srcW [] []).result =
      .error (.buildFailed t1Name) ∧
    (build envW fsP actPartial [(n1Key, t1Name), (n2Key, t2Name)] srcW [] []).ran =
      true ∧
    isfile (build envW fsP actPartial [(n1Key, t1Name), (n2Key, t2Name)] srcW [] []).fs
      t1Name = false := by
  decide

/-- Witness for `c2_partial_deleted` on the concrete two-target request. -/
theorem c2_partial_deleted_witness :
    noConflict envW fsP ((n1Key, t1Name) :: [(n2Key, t2Name)]) srcW [] = true ∧
    namesOk (regPairs ((n1Key, t1Name) :: [(n2Key, t2Name)])) (regPairs srcW) [] =
      true ∧
    checkResult envW fsP ((n1Key, t1Name) :: [(n2Key, t2Name)]) srcW [] = .ok false ∧
    actPartial (regPairs ((n1Key, t1Name) :: [(n2Key, t2Name)]) ++ regPairs srcW ++ [])
      fsP = (writeFile fsP t1Name ⟨20, 20⟩, false) ∧
    ((build envW fsP actPartial ((n1Key, t1Name) :: [(n2Key, t2Name)]) srcW [] []).ran =
        true ∧
      (build envW fsP actPartial ((n1Key, t1Name) :: [(n2Key, t2Name)]) srcW [] []).result =
        .error (.buildFailed (getPath t1Name)) ∧
      ∀ kv2 ∈ (n1Key, t1Name) :: [(n2Key, t2Name)],
        isfile (build envW fsP actPartial ((n1Key, t1Name) :: [(n2Key, t2Name)])
          srcW [] []).fs (getPath kv2.2) = false) :=
  ⟨by decide, by decide, by decide, by decide,
    c2_partial_deleted envW fsP actPartial n1Key t1Name [(n2Key, t2Name)] srcW [] []
      (writeFile fsP t1Name ⟨20, 20⟩) (by decide) (by decide) (by decide) (by decide)⟩

/-! ### Claim C9 -/

/-- Claim C9 (amended): after a stale build whose action completes
without raising, the code re-checks only the EXISTENCE of every target:
if some declared target file is still missing, the build fails with the
build-failed error even though the action did not raise.  A target that
exists but is still older than the baseline timestamp is NOT rejected:
staleness is not re-checked; the target's timestamp is instead pinned to
the reference time. -/
theorem c9_missing_target_fails (env : Env) (fs : FS) (act : Action)
    (T S K : List (String × String)) (D : List String) (fs1 : FS)
    (hc : noConflict env fs T S D = true)
    (hn : namesOk (regPairs T) (regPairs S) K = true)
    (hs : checkResult env fs T S D = .ok false)
    (hact : act (regPairs T ++ regPairs S ++ K) fs = (fs1, true))
    (hmiss : ∃ kv ∈ T, isfile fs1 (getPath kv.2) = false) :
    (build env fs act T S D K).ran = true ∧
    ∃ p, (build env fs act T S D K).result = .error (.buildFailed p) := by
  obtain ⟨env3, hre⟩ := noConflict_elim hc
  have hcr : checkResult env fs T S D =
      allTargetsOk env3 fs ((regPairs T).map Prod.snd) (depsTuple fs S D) := by
    unfold checkResult
    rw [hre]
  rw [hcr] at hs
  have hbeq : build env fs act T S D K = postBuild env3 fs1 (regPairs T) := by
    rw [build_eq_ok hre, hn, if_neg (by simp), hs, hact]
  obtain ⟨kv, hkv, hmf⟩ := hmiss
  obtain ⟨q, hq⟩ := firstMissing_some_of_missing ((regPairs T).map Prod.snd) fs1
    ⟨getPath kv.2, mem_regPairs_snd hkv, hmf⟩
  rw [hbeq, postBuild_eq_missing hq]
  exact ⟨rfl, q, rfl⟩

/-- Counterexample for C9 as stated: the source has mtime 50, the target
is missing (stale), the action creates the target with mtime 10 — still
older than the baseline 50.  The claim says this build fails with the
build-failed error; the code only checks existence, accepts the target,
pins its timestamp, and returns the target paths. -/
theorem c9_cex :
    lookupFile fsC9 sName = some 50 ∧
    (build envW fsC9 actOld tgtW srcW [] []).ran = true ∧
    (build envW fsC9 actOld tgtW srcW [] []).result = .ok (regPairs tgtW) := by
  decide

/-- Witness for `c9_missing_target_fails`: a stale build whose action
succeeds without creating the target fails with the build-failed error. -/
theorem c9_missing_target_fails_witness :
    noConflict envW fsP tgtW srcW [] = true ∧
    namesOk (regPairs tgtW) (regPairs srcW) [] = true ∧
    checkResult envW fsP tgtW srcW [] = .ok false ∧
    actNoop (regPairs tgtW ++ regPairs srcW ++ []) fsP = (fsP, true) ∧
    (∃ kv ∈ tgtW, isfile fsP (getPath kv.2) = false) ∧
    ((build envW fsP actNoop tgtW srcW [] []).ran = true ∧
      ∃ p, (build envW fsP actNoop tgtW srcW [] []).result =
        .error (.buildFailed p)) :=
  ⟨by decide, by decide, by decide, by decide, by decide,
    c9_missing_target_fails envW fsP actNoop tgtW srcW [] [] fsP
      (by decide) (by decide) (by decide) (by decide) (by decide)⟩

/-! ### Claim C8 -/

/-- Claim C8 (confirmed): for every build call that invoked the action
and returned successfully, every returned target file's modification
time AND access time are set to exactly the engine's reference time
captured at engine construction, regardless of the timestamps the
action itself gave the files. -/
theorem c8_timestamps_pinned (env : Env) (fs : FS) (act : Action)
    (T S K : List (String × String)) (D : List String)
    (tgts : List (String × String))
    (h1 : (build env fs act T S D K).ran = true)
    (h2 : (build env fs act T S D K).result = .ok tgts) :
    ∀ t ∈ tgts.map Prod.snd,
      lookupMeta (build env fs act T S D K).fs t = some ⟨env.now, env.now⟩ := by
  rcases hre : runTargets (runSources (runDeps env fs D).1 S).1 T with ⟨e3, r⟩
  cases r with
  | error e =>
      rw [build_eq_conflict hre] at h1
      exact absurd h1 (by simp)
  | ok tg =>
      have hv := runTargets_ok_val T _ _ _ hre
      subst hv
      have hnow : e3.now = env.now := stage_now hre
      rw [build_eq_ok hre] at h1 h2 ⊢
      by_cases hnn : namesOk (regPairs T) (regPairs S) K = false
      · rw [if_pos hnn] at h1
        exact absurd h1 (by simp)
      · rw [if_neg hnn] at h1 h2 ⊢
        rcases hall : allTargetsOk e3 fs ((regPairs T).map Prod.snd)
            (depsTuple fs S D) with e | b
        · simp only [hall] at h1
          exact Bool.noConfusion h1
        · cases b with
          | true =>
              simp only [hall] at h1
              exact Bool.noConfusion h1
          | false =>
              simp only [hall] at h2 ⊢
              rcases hact : act (regPairs T ++ regPairs S ++ K) fs with ⟨fs1, flag⟩
              rw [hact] at h2
              cases flag with
              | true =>
                  have h2b : (postBuild e3 fs1 (regPairs T)).result = .ok tgts := h2
                  rcases hfm : firstMissing fs1 ((regPairs T).map Prod.snd)
                    with _ | q
                  · rw [postBuild_eq_done hfm] at h2b
                    injection h2b with h2c
                    subst h2c
                    show ∀ t ∈ (regPairs T).map Prod.snd,
                      lookupMeta (postBuild e3 fs1 (regPairs T)).fs t =
                        some ⟨env.now, env.now⟩
                    rw [postBuild_eq_done hfm]
                    intro t htm
                    rw [← hnow]
                    exact lookupMeta_pinTimestamps _ _ htm
                      (firstMissing_none _ _ hfm t htm)
                  · rw [postBuild_eq_missing hfm] at h2b
                    exact absurd h2b (by simp)
              | false =>
                  have h2b : (postBuild e3
                      (deleteTargets fs1 ((regPairs T).map Prod.snd))
                      (regPairs T)).result = .ok tgts := h2
                  rcases hfm : firstMissing
                      (deleteTargets fs1 ((regPairs T).map Prod.snd))
                      ((regPairs T).map Prod.snd) with _ | q
                  · rw [postBuild_eq_done hfm] at h2b
                    injection h2b with h2c
                    subst h2c
                    show ∀ t ∈ (regPairs T).map Prod.snd,
                      lookupMeta (postBuild e3
                        (deleteTargets fs1 ((regPairs T).map Prod.snd))
                        (regPairs T)).fs t = some ⟨env.now, env.now⟩
                    rw [postBuild_eq_done hfm]
                    intro t htm
                    rw [← hnow]
                    exact lookupMeta_pinTimestamps _ _ htm
                      (firstMissing_none _ _ hfm t htm)
                  · rw [postBuild_eq_missing hfm] at h2b
                    exact absurd h2b (by simp)

/-- Witness for `c8_timestamps_pinned`: the action writes the target
with mtime 7 / atime 3; after the build both are exactly the reference
time 100. -/
theorem c8_timestamps_pinned_witness :
    (build envW fsP actMakeT tgtW srcW [] []).ran = true ∧
    (build envW fsP actMakeT tgtW srcW [] []).result = .ok (regPairs tgtW) ∧
    lookupMeta (build envW fsP actMakeT tgtW srcW [] []).fs tName =
      some ⟨100, 100⟩ :=
  ⟨by decide, by decide,
    c8_timestamps_pinned envW fsP actMakeT tgtW srcW [] [] (regPairs tgtW)
      (by decide) (by decide) tName (by decide)⟩

/-! ### Claim C6 -/

/-- Claim C6 (confirmed): a file whose modification time is strictly
greater than the engine's reference time makes any needed timestamp read
raise the "timestamp > now" exception instead of yielding a staleness
decision (first conjunct: `_get_timestamp` itself).  In particular, for
a request with at least one target whose sources and dependencies all
exist, a single source or dependency newer than the reference time — for
example one created after the engine was constructed — makes the whole
build fail with that exception, and the action is never invoked (second
conjunct). -/
theorem c6_future_timestamp :
    (∀ (env : Env) (fs : FS) (p : String) (ts : Nat),
        lookupFile fs p = some ts → env.now < ts →
        getTimestamp env fs p false = .error (.timestampFuture p)) ∧
    (∀ (env : Env) (fs : FS) (act : Action) (k v : String)
        (rest S K : List (String × String)) (D : List String),
        noConflict env fs ((k, v) :: rest) S D = true →
        namesOk (regPairs ((k, v) :: rest)) (regPairs S) K = true →
        (∀ x ∈ depsTuple fs S D, itemExists fs x = true) →
        (∃ x ∈ depsTuple fs S D, itemFuture env fs x = true) →
        (build env fs act ((k, v) :: rest) S D K).ran = false ∧
        ∃ q, (build env fs act ((k, v) :: rest) S D K).result =
          .error (.timestampFuture q)) := by
  constructor
  · intro env fs p ts h hlt
    exact getTimestamp_future h hlt
  · intro env fs act k v rest S K D hc hn hall hfut
    obtain ⟨env3, hre⟩ := noConflict_elim hc
    have hnow := stage_now hre
    have hall2 : ∀ x ∈ depsTuple fs S D,
        ∃ p ts, x = some p ∧ lookupFile fs p = some ts := by
      intro x hx
      have := hall x hx
      cases x with
      | none => exact absurd this (by simp [itemExists])
      | some p =>
          simp only [itemExists] at this
          rcases hl : lookupFile fs p with _ | ts
          · rw [hl] at this
            exact absurd this (by simp)
          · exact ⟨p, ts, rfl, hl⟩
    have hfut2 : ∃ x ∈ depsTuple fs S D, ∃ p ts, x = some p ∧
        lookupFile fs p = some ts ∧ env3.now < ts := by
      obtain ⟨x, hx, hf⟩ := hfut
      cases x with
      | none => exact absurd hf (by simp [itemFuture])
      | some p =>
          simp only [itemFuture] at hf
          rcases hl : lookupFile fs p with _ | ts
          · rw [hl] at hf
            exact absurd hf (by simp)
          · rw [hl] at hf
            simp only [decide_eq_true_eq] at hf
            exact ⟨some p, hx, p, ts, rfl, hl, by rw [hnow]; exact hf⟩
    obtain ⟨x0, hx0, _⟩ := hfut
    have hne : depsTuple fs S D ≠ [] := by
      intro hnil
      rw [hnil] at hx0
      cases hx0
    obtain ⟨q, hq⟩ := getLatestTsAux_future (depsTuple fs S D) hall2 hfut2
    have hcheck : checkTargetOk env3 fs (getPath v) (depsTuple fs S D) =
        .error (.timestampFuture q) := checkTargetOk_err hne hq
    have hata : allTargetsOk env3 fs
        ((regPairs ((k, v) :: rest)).map Prod.snd) (depsTuple fs S D) =
        .error (.timestampFuture q) := by
      have hsplit : (regPairs ((k, v) :: rest)).map Prod.snd =
          getPath v :: (regPairs rest).map Prod.snd := rfl
      rw [hsplit]
      exact allTargetsOk_err hcheck
    rw [build_eq_ok hre, hn, if_neg (by simp), hata]
    exact ⟨rfl, q, rfl⟩

/-- Witness for `c6_future_timestamp`: an engine whose reference time 5
predates the source file `sName` (mtime 10); reading the timestamp
raises, and the build fails with the timestamp error without invoking
the action. -/
theorem c6_future_timestamp_witness :
    getTimestamp envEarly fsP sName false = .error (.timestampFuture sName) ∧
    ((build envEarly fsP actNoop ((dstKey, tName) :: []) srcW [] []).ran = false ∧
      ∃ q, (build envEarly fsP actNoop ((dstKey, tName) :: []) srcW [] []).result =
        .error (.timestampFuture q)) :=
  ⟨c6_future_timestamp.1 envEarly fsP sName 10 (by decide) (by decide),
    c6_future_timestamp.2 envEarly fsP actNoop dstKey tName [] srcW [] []
      (by decide) (by decide) (by decide) (by decide)⟩

/-! ### Claim C10 -/

/-- Claim C10 (amended): for every build request with AT LEAST ONE
declared target, no directory dependencies, no name overlap, no target
conflict, and whose existing sources/dependencies are all no newer than
the reference time, if some declared source or dependency file does not
exist on disk the build fails with the missing-file error
(`FileNotFoundError`), and the action is never invoked.  (With an empty
target mapping the staleness check is vacuous and the code returns
successfully without ever reading the missing source, so the claim's
unrestricted "always fails" is false.) -/
theorem c10_missing_source_fails (env : Env) (fs : FS) (act : Action)
    (k v : String) (rest S K : List (String × String)) (D : List String)
    (hc : noConflict env fs ((k, v) :: rest) S D = true)
    (hn : namesOk (regPairs ((k, v) :: rest)) (regPairs S) K = true)
    (hsome : ∀ x ∈ depsTuple fs S D, x.isSome = true)
    (hok : ∀ x ∈ depsTuple fs S D, itemWithinNow env fs x = true)
    (hmiss : ∃ x ∈ depsTuple fs S D, itemMissing fs x = true) :
    (build env fs act ((k, v) :: rest) S D K).ran = false ∧
    ∃ q, (build env fs act ((k, v) :: rest) S D K).result =
      .error (.fileNotFound q) := by
  obtain ⟨env3, hre⟩ := noConflict_elim hc
  have hnow := stage_now hre
  have hall2 : ∀ x ∈ depsTuple fs S D, ∃ p, x = some p := by
    intro x hx
    have := hsome x hx
    cases x with
    | none => exact absurd this (by simp)
    | some p => exact ⟨p, rfl⟩
  have hok2 : ∀ x ∈ depsTuple fs S D, ∀ p, x = some p →
      ∀ ts, lookupFile fs p = some ts → ts ≤ env3.now := by
    intro x hx p hxp ts hl
    have := hok x hx
    subst hxp
    simp only [itemWithinNow, hl, decide_eq_true_eq] at this
    rw [hnow]
    exact this
  have hmiss2 : ∃ x ∈ depsTuple fs S D, ∃ p, x = some p ∧
      lookupFile fs p = none := by
    obtain ⟨x, hx, hm⟩ := hmiss
    cases x with
    | none => exact absurd hm (by simp [itemMissing])
    | some p =>
        simp only [itemMissing, Option.isNone_iff_eq_none] at hm
        exact ⟨some p, hx, p, rfl, hm⟩
  obtain ⟨x0, hx0, _⟩ := hmiss
  have hne : depsTuple fs S D ≠ [] := by
    intro hnil
    rw [hnil] at hx0
    cases hx0
  obtain ⟨q, hq⟩ := getLatestTsAux_missing (depsTuple fs S D) hall2 hok2 hmiss2
  have hcheck : checkTargetOk env3 fs (getPath v) (depsTuple fs S D) =
      .error (.fileNotFound q) := checkTargetOk_err hne hq
  have hata : allTargetsOk env3 fs
      ((regPairs ((k, v) :: rest)).map Prod.snd) (depsTuple fs S D) =
      .error (.fileNotFound q) := by
    have hsplit : (regPairs ((k, v) :: rest)).map Prod.snd =
        getPath v :: (regPairs rest).map Prod.snd := rfl
    rw [hsplit]
    exact allTargetsOk_err hcheck
  rw [build_eq_ok hre, hn, if_neg (by simp), hata]
  exact ⟨rfl, q, rfl⟩

/-- Counterexample for C10 as stated: a request whose source file is
missing but whose target mapping is EMPTY does not fail at all — the
staleness check quantifies over no targets, so the missing source's
timestamp is never read and the build returns successfully. -/
theorem c10_cex :
    lookupFile fsEmpty sName = none ∧
    (build envW fsEmpty actNoop [] srcW [] []).result = .ok [] ∧
    (build envW fsEmpty actNoop [] srcW [] []).ran = false := by
  decide

/-- Witness for `c10_missing_source_fails`: one declared target and a
missing source file. -/
theorem c10_missing_source_fails_witness :
    noConflict envW fsEmpty ((dstKey, tName) :: []) srcW [] = true ∧
    namesOk (regPairs ((dstKey, tName) :: [])) (regPairs srcW) [] = true ∧
    (∀ x ∈ depsTuple fsEmpty srcW [], x.isSome = true) ∧
    (∀ x ∈ depsTuple fsEmpty srcW [], itemWithinNow envW fsEmpty x = true) ∧
    (∃ x ∈ depsTuple fsEmpty srcW [], itemMissing fsEmpty x = true) ∧
    ((build envW fsEmpty actNoop ((dstKey, tName) :: []) srcW [] []).ran = false ∧
      ∃ q, (build envW fsEmpty actNoop ((dstKey, tName) :: []) srcW [] []).result =
        .error (.fileNotFound q)) :=
  ⟨by decide, by decide, by decide, by decide, by decide,
    c10_missing_source_fails envW fsEmpty actNoop dstKey tName [] srcW [] []
      (by decide) (by decide) (by decide) (by decide) (by decide)⟩

/-! ### Claim C7 -/

/-- Claim C7 (code bug): the claim — directory dependencies expand to
their contained files for the baseline timestamp, and an empty directory
dependency is harmless — matches the evident intent of `_add_node`
(which walks the directory and registers every contained file), but the
function then falls through a bare `return`, yielding `None` into the
dependency list, so `os.path.getmtime(None)` raises `TypeError` inside
the staleness check: ANY directory dependency (here an empty one, with
the target otherwise perfectly fresh) makes the build raise instead of
proceeding, and the expanded files never contribute to the baseline. -/
theorem c7_dir_dep_type_error :
    lookupD fsDir.dirs dName = some [] ∧
    (build envW fsDir actNoop tgtW srcW [dName] []).result = .error .typeError ∧
    (build envW fsDir actNoop tgtW srcW [dName] []).ran = false := by
  decide

end WingechrBuild
